import Mathlib

/-!
Verification development for the `clean-arch-rust` repository: a shallow
embedding in Lean 4 of the domain entities (`src/domain/entities.rs`), the
use-case layer (`src/domain/mod.rs`), and the three storage backends of
`src/data/mod.rs` (the SQLite-backed `Rusqlite` store, the `Vec`-backed
`TrivialRepository`, and the `HashMap`-backed `HashRepository`), together
with theorems settling the specification claims about them.
-/

set_option autoImplicit false

namespace CleanArch

/-! ## Domain entities (src/domain/entities.rs) -/

/-- `Task` from entities.rs: description, tags, optional due instant, done
flag.  `std::time::Instant` is opaque; it is modelled as a `Nat` tick. -/
structure Task where
  desc : String
  tags : List String
  due : Option Nat
  done : Bool
deriving DecidableEq, Repr

/-- `Task::new`: empty tags, no due, not done. -/
def Task.new (description : String) : Task :=
  { desc := description, tags := [], due := none, done := false }

/-- `Task::finish`. -/
def Task.finish (t : Task) : Task := { t with done := true }

/-- `Task::is_done`. -/
def Task.is_done (t : Task) : Bool := t.done

/-- `Task::due` (builder setting the due instant). -/
def Task.set_due (t : Task) (when : Nat) : Task := { t with due := some when }

/-- `User` from entities.rs: a name and an owned, ordered task list. -/
structure User where
  name : String
  tasks : List Task
deriving DecidableEq, Repr

/-- `User::with_tasks`. -/
def User.with_tasks (name : String) (tasks : List Task) : User :=
  { name := name, tasks := tasks }

/-- `User::new`. -/
def User.new (name : String) : User := User.with_tasks name []

/-- `User::add_task` (pushes at the end). -/
def User.add_task (u : User) (t : Task) : User :=
  { u with tasks := u.tasks ++ [t] }

/-- `UserSearchTerms`: the closed credential enumeration for `User`. -/
inductive UserSearchTerms where
  | Name (name : String)
deriving DecidableEq, Repr

/-! ## Use cases (src/domain/mod.rs) -/

/-- `usecases::find_all_done`: filter the user's tasks by `is_done`
(preserving their stored order). -/
def find_all_done (u : User) : List Task :=
  u.tasks.filter (fun t => t.is_done)

/-- `usecases::find_all_done_via_id`, generic over a repository exactly as
the Rust function is generic over `R: Repository<User>`.  The repository is
represented by its `get` function.  The source calls
`repo.get(&id).expect("No such user!")`, which panics when `get` returns
`None`; the panic is modelled by propagating `none` as the overall result. -/
def find_all_done_via_id {Store Id : Type} (getf : Store → Id → Option User)
    (repo : Store) (id : Id) : Option (List Task) :=
  (getf repo id).map find_all_done

/-! ## TrivialRepository (src/data/mod.rs, Vec-backed, Id = usize) -/

/-- `TrivialRepository::save`: remember the current length, push a clone,
return the remembered index. -/
def trivSave {α : Type} (l : List α) (v : α) : List α × Nat :=
  (l ++ [v], l.length)

/-- `TrivialRepository::get`: bounds-checked positional lookup
(`self.0.get(*id).cloned()`). -/
def trivGet {α : Type} (l : List α) (i : Nat) : Option α := l[i]?

/-- `TrivialRepository::all`: a clone of the whole vector. -/
def trivAll {α : Type} (l : List α) : List α := l

/-- A sequence of `save` calls against a `TrivialRepository`, returning the
final store and the identities in call order. -/
def trivRunFrom {α : Type} : List α → List α → List α × List Nat
  | l, [] => (l, [])
  | l, v :: vs =>
    let s := trivSave l v
    let r := trivRunFrom s.1 vs
    (r.1, s.2 :: r.2)

/-! ## HashRepository (src/data/mod.rs, HashMap-backed, Id = Uuid)

The 128-bit `Uuid` value space is modelled by `Nat`; `Uuid::new_v4()` is a
random draw, so a save sequence is parameterized by the list of tokens the
generator produced.  `HashMap` is modelled as an association list with
`HashMap::insert` semantics (replace the value if the key is present,
otherwise add the entry). -/

/-- `HashMap::insert`: replace on an existing key, otherwise append. -/
def hinsert {α : Type} (k : Nat) (v : α) : List (Nat × α) → List (Nat × α)
  | [] => [(k, v)]
  | p :: rest => if p.1 = k then (k, v) :: rest else p :: hinsert k v rest

/-- `HashMap::get` (used by `HashRepository::get`): lookup by key. -/
def hlookup {α : Type} (k : Nat) : List (Nat × α) → Option α
  | [] => none
  | p :: rest => if p.1 = k then some p.2 else hlookup k rest

/-- `HashRepository::save` with the generated token made explicit: insert a
clone under the fresh token and return the token. -/
def hsave {α : Type} (s : List (Nat × α)) (tok : Nat) (v : α) :
    List (Nat × α) × Nat :=
  (hinsert tok v s, tok)

/-- A sequence of `save` calls against a `HashRepository`, the generator's
tokens paired with the saved values; returns the final store and the
identities in call order. -/
def hashRunFrom {α : Type} : List (Nat × α) → List (Nat × α) →
    List (Nat × α) × List Nat
  | s, [] => (s, [])
  | s, (tok, v) :: rest =>
    let s1 := hsave s tok v
    let r := hashRunFrom s1.1 rest
    (r.1, s1.2 :: r.2)

/-! ## SQLite value and row model -/

/-- A dynamically-typed SQLite cell value as far as this program uses them:
`NULL`, integers (also carrying booleans as 0/1, as rusqlite binds them),
and text. -/
inductive SQLValue where
  | null
  | integer (i : Int)
  | text (s : String)
deriving DecidableEq, Repr

/-- A result row: the selected columns in table order, each carrying its
column name (rusqlite exposes both positional and by-name access). -/
abbrev Row := List (String × SQLValue)

/-- `row.get("name")`: by-name column access (first column with the name). -/
def rowLookup (name : String) (r : Row) : Option SQLValue :=
  (r.find? fun p => decide (p.1 = name)).map Prod.snd

/-- `row.get(i)`: positional column access. -/
def rowIdx (i : Nat) (r : Row) : Option SQLValue :=
  (r[i]?).map Prod.snd

/-- rusqlite `FromSql` for `String`: anything but text is a type error
(a panic in the source, modelled as `none`). -/
def asText : SQLValue → Option String
  | SQLValue.text s => some s
  | _ => none

/-- rusqlite `FromSql` for `i64`. -/
def asInt : SQLValue → Option Int
  | SQLValue.integer i => some i
  | _ => none

/-- rusqlite `FromSql` for `bool`: an integer, read as `i != 0`. -/
def asBool : SQLValue → Option Bool
  | SQLValue.integer i => some (decide (i ≠ 0))
  | _ => none

/-- rusqlite `FromSql` for `Option<String>`: `NULL` becomes `None`. -/
def asOptText : SQLValue → Option (Option String)
  | SQLValue.null => some none
  | SQLValue.text s => some (some s)
  | _ => none

/-! ## The SQLable mapping contract (src/data/mod.rs) -/

/-- `<User as SQLable>::select`. -/
def User.select : String := "SELECT * FROM users"

/-- `<User as SQLable>::insert`. -/
def User.insert : String := "INSERT INTO users (name) VALUES (?)"

/-- `<Task as SQLable>::select`. -/
def Task.select : String := "SELECT * from tasks"

/-- `<Task as SQLable>::insert`. -/
def Task.insert : String := "INSERT INTO tasks (desc, done, tags) VALUES (?, ?, ?)"

/-- `<Task as SQLable>::create_table` statement text. -/
def Task.create_table : String :=
  "CREATE TABLE tasks (id INTEGER PRIMARY KEY, desc TEXT NOT NULL, done BOOL NOT NULL, tags TEXT)"

/-- `<User as SQLable>::create_table` statement text. -/
def User.create_table : String :=
  "CREATE TABLE users (id INTEGER PRIMARY KEY, name TEXT NOT NULL)"

/-- `Task::bind`'s tags encoding: `data.tags.join(",")`, bound as text when
non-empty and as SQL `NULL` otherwise. -/
def tagsVal (tags : List String) : SQLValue :=
  let joined := String.intercalate "," tags
  if joined.length > 0 then SQLValue.text joined else SQLValue.null

/-- The ordered bound values of `Task::bind`'s single insert:
`[&data.desc, &data.done, &tags]` (a bool binds as integer 0/1). -/
def taskParams (t : Task) : List SQLValue :=
  [SQLValue.text t.desc, SQLValue.integer (if t.done then 1 else 0), tagsVal t.tags]

/-- A prepared-and-bound statement: its SQL text and bound values. -/
abbrev Stmt := String × List SQLValue

/-- `Task::bind` hands the consumer exactly one statement: the task insert
with the task's bound values. -/
def Task.bindStmts (t : Task) : List Stmt :=
  [(Task.insert, taskParams t)]

/-- The `for task in data.tasks()` loop of `User::bind`: each task's
statements in collection order. -/
def bindTaskSeq : List Task → List Stmt
  | [] => []
  | t :: ts => Task.bindStmts t ++ bindTaskSeq ts

/-- `User::bind`: first the user's own insert (whose consumer result is
returned as `my_id`), then every owned task's insert in order. -/
def User.bindStmts (u : User) : List Stmt :=
  (User.insert, [SQLValue.text u.name]) :: bindTaskSeq u.tasks

/-! ## The Rusqlite connection state -/

/-- The in-memory SQLite database owned by a `Rusqlite` store after `setup`
has created both tables: the `users` and `tasks` tables as row lists.
SQLite's `INTEGER PRIMARY KEY` rowid for an insert-only table is
`length + 1` (rowids start at 1). -/
structure DB where
  users : List Row
  tasks : List Row
deriving DecidableEq, Repr

def emptyDB : DB := { users := [], tasks := [] }

/-- The stored row of a user: schema order `(id, name)`. -/
def mkUserRow (id : Int) (name : String) : Row :=
  [("id", SQLValue.integer id), ("name", SQLValue.text name)]

/-- The stored row of a task from its raw bound values: schema order
`(id, desc, done, tags)`. -/
def mkTaskRowRaw (id : Int) (desc : String) (donei : Int) (tagsv : SQLValue) : Row :=
  [("id", SQLValue.integer id), ("desc", SQLValue.text desc),
   ("done", SQLValue.integer donei), ("tags", tagsv)]

/-- The stored row of a task bound from a `Task` value. -/
def mkTaskRow (id : Int) (t : Task) : Row :=
  mkTaskRowRaw id t.desc (if t.done then 1 else 0) (tagsVal t.tags)

/-- Execute `INSERT INTO users (name) VALUES (?)`: append the row, return
the new rowid (`stmnt.insert` returns `last_insert_rowid`). -/
def insertUserRaw (db : DB) (name : String) : DB × Int :=
  let id : Int := (db.users.length : Int) + 1
  ({ db with users := db.users ++ [mkUserRow id name] }, id)

/-- Execute `INSERT INTO tasks (desc, done, tags) VALUES (?, ?, ?)`. -/
def insertTaskRaw (db : DB) (desc : String) (donei : Int) (tagsv : SQLValue) : DB × Int :=
  let id : Int := (db.tasks.length : Int) + 1
  ({ db with tasks := db.tasks ++ [mkTaskRowRaw id desc donei tagsv] }, id)

/-- The connection executing one prepared insert: dispatch on the statement
text the program built.  A malformed statement or ill-typed binding panics
in the source (`expect`), modelled as `none`. -/
def execStmt (db : DB) : Stmt → Option (DB × Int)
  | (sql, ps) =>
    if sql = User.insert then
      match ps with
      | [SQLValue.text name] => some (insertUserRaw db name)
      | _ => none
    else if sql = Task.insert then
      match ps with
      | [SQLValue.text desc, SQLValue.integer donei, tagsv] =>
        some (insertTaskRaw db desc donei tagsv)
      | _ => none
    else none

/-- Executing a statement list in order, keeping only the final state. -/
def execStmts (db : DB) : List Stmt → Option DB
  | [] => some db
  | s :: rest => (execStmt db s).bind fun r => execStmts r.1 rest

/-- `Rusqlite::save`: run `T::bind`'s statements through the consumer; the
returned identity is the consumer result of the first statement
(`my_id` in `User::bind`). -/
def rusqSave (db : DB) : List Stmt → Option (DB × Int)
  | [] => none
  | s :: rest =>
    (execStmt db s).bind fun r =>
      (execStmts r.1 rest).map fun dbf => (dbf, r.2)

/-- `Rusqlite::save::<Task>`. -/
def saveTask (db : DB) (t : Task) : Option (DB × Int) :=
  rusqSave db (Task.bindStmts t)

/-- `Rusqlite::save::<User>`. -/
def saveUser (db : DB) (u : User) : Option (DB × Int) :=
  rusqSave db (User.bindStmts u)

/-! ## Rusqlite query path -/

/-- `Task::from_row`: by-name reads of `desc`, `done`, `tags`; a `NULL`
tags column becomes the empty tag list, otherwise the text splits on
commas; `due` is always reconstructed as `None` (the schema has no due
column).  A missing column or type mismatch panics in the source,
modelled as `none`. -/
def Task.from_row (r : Row) : Option Task :=
  ((rowLookup "desc" r).bind asText).bind fun desc =>
  ((rowLookup "done" r).bind asBool).bind fun done =>
  ((rowLookup "tags" r).bind asOptText).map fun tagsOpt =>
    { desc := desc,
      tags := match tagsOpt with
              | none => []
              | some s => s.splitOn ","
      due := none,
      done := done }

/-- The WHERE conjunction of `Rusqlite::query`: a row survives when every
`field = (?)` clause holds of it. -/
def rowMatches (ps : List (String × SQLValue)) (r : Row) : Bool :=
  ps.all fun p => decide (rowLookup p.1 r = some p.2)

/-- The `LIMIT n` suffix applied by SQLite to the matched rows. -/
def applyLimit {α : Type} (limit : Option Nat) (l : List α) : List α :=
  match limit with
  | none => l
  | some n => l.take n

/-- The `query_map(..).collect()` step: every returned row maps through
`from_row`, and a failure for any single row aborts the whole call
(`expect("Could not construct")`), modelled as `none`. -/
def omapM {α β : Type} (f : α → Option β) : List α → Option (List β)
  | [] => some []
  | a :: l => (f a).bind fun b => (omapM f l).map fun bs => b :: bs

/-- `Rusqlite::query::<Task>` executed against the tasks table: filter by
the conjoined equality clauses, apply the limit, reconstruct each row. -/
def queryTasks (db : DB) (ps : List (String × SQLValue)) (limit : Option Nat) :
    Option (List Task) :=
  omapM Task.from_row (applyLimit limit (db.tasks.filter (rowMatches ps)))

/-- `User::from_row`: positional reads `row.get(0)` (the id, an `i64`) and
`row.get(1)` (the name), then the owned tasks are fetched by the nested
query `repo.query(&[QueryValue("id", &id)], None)` against the tasks
table. -/
def User.from_row (db : DB) (r : Row) : Option User :=
  ((rowIdx 0 r).bind asInt).bind fun id =>
  ((rowIdx 1 r).bind asText).bind fun name =>
  (queryTasks db [("id", SQLValue.integer id)] none).map fun tasks =>
    User.with_tasks name tasks

/-- `Rusqlite::query::<User>` executed against the users table. -/
def queryUsers (db : DB) (ps : List (String × SQLValue)) (limit : Option Nat) :
    Option (List User) :=
  omapM (User.from_row db) (applyLimit limit (db.users.filter (rowMatches ps)))

/-- `Rusqlite::get::<Task>`: query `id = (?)` with `LIMIT 1`, then
`into_iter().next()`. -/
def getTask (db : DB) (id : Int) : Option (Option Task) :=
  (queryTasks db [("id", SQLValue.integer id)] (some 1)).map List.head?

/-- `Rusqlite::get::<User>`. -/
def getUser (db : DB) (id : Int) : Option (Option User) :=
  (queryUsers db [("id", SQLValue.integer id)] (some 1)).map List.head?

/-- `Rusqlite::get_all::<User>` (`all` of the storage contract). -/
def allUsersQ (db : DB) : Option (List User) := queryUsers db [] none

/-- `Rusqlite::get_all::<Task>`. -/
def allTasksQ (db : DB) : Option (List Task) := queryTasks db [] none

/-- `<User as SQLSearchable>::build_query`: one `("name", value)` pair per
`UserSearchTerms::Name` credential, in list order. -/
def User.build_query : List UserSearchTerms → List (String × SQLValue)
  | [] => []
  | UserSearchTerms.Name n :: rest => ("name", SQLValue.text n) :: User.build_query rest

/-- `<Rusqlite as SearchableRepository<User>>::find`. -/
def findUsers (db : DB) (creds : List UserSearchTerms) (limit : Option Nat) :
    Option (List User) :=
  queryUsers db (User.build_query creds) limit

/-- A sequence of `Rusqlite::save::<Task>` calls, returning the final
database and the identities in call order (`none` if any save aborts). -/
def taskRunFrom (db : DB) : List Task → Option (DB × List Int)
  | [] => some (db, [])
  | t :: ts =>
    (saveTask db t).bind fun r =>
      (taskRunFrom r.1 ts).map fun rf => (rf.1, r.2 :: rf.2)

/-- A sequence of `Rusqlite::save::<User>` calls, returning the final
database and the identities in call order (`none` if any save aborts). -/
def userRunFrom (db : DB) : List User → Option (DB × List Int)
  | [] => some (db, [])
  | u :: us =>
    (saveUser db u).bind fun r =>
      (userRunFrom r.1 us).map fun rf => (rf.1, r.2 :: rf.2)

/-! ## The SQL text builder of `Rusqlite::query` -/

/-- The `while let Some(..) = iter.next()` loop of `Rusqlite::query`: for
each parameter append `" {field} = (?)"` and push the value, then append
`" AND"` when another parameter follows. -/
def queryLoop : List (String × SQLValue) → String × List SQLValue
  | [] => ("", [])
  | p :: rest =>
    let seg := " " ++ p.1 ++ " = (?)" ++ (if rest.isEmpty then "" else " AND")
    let r := queryLoop rest
    (seg ++ r.1, p.2 :: r.2)

/-- The statement text and positional bindings `Rusqlite::query` builds:
the select, `" WHERE"` only when parameters exist, the clause loop, and the
`" LIMIT n"` suffix when a cap was requested. -/
def buildQueryText (select : String) (ps : List (String × SQLValue))
    (limit : Option Nat) : String × List SQLValue :=
  let base := select ++ (if ps.length > 0 then " WHERE" else "")
  let r := queryLoop ps
  (base ++ r.1 ++ (match limit with
                   | some n => " LIMIT " ++ toString n
                   | none => ""), r.2)

/-- Spec-side reading of the clause list: the clauses joined by `AND`
(each preceded by the single space the loop emits). -/
def whereClause : List String → String
  | [] => ""
  | [c] => " " ++ c
  | c :: rest => " " ++ c ++ " AND" ++ whereClause rest

/-- Spec-side reading of the limit suffix. -/
def limitSuffix : Option Nat → String
  | none => ""
  | some n => " LIMIT " ++ toString n

/-- Does a `User` value satisfy one credential? (`Name n`: exact name
match.) -/
def credSatisfied (u : User) : UserSearchTerms → Bool
  | UserSearchTerms.Name n => decide (u.name = n)

/-- Shape of a well-formed stored users row: exactly the two schema
columns with their stored types. -/
def wfUserRow : Row → Bool
  | [("id", SQLValue.integer _), ("name", SQLValue.text _)] => true
  | _ => false

/-- The rows appended for a task list saved starting at rowid `n`:
sequential ids, collection order. -/
def taskRowsFrom (n : Int) : List Task → List Row
  | [] => []
  | t :: ts => mkTaskRow n t :: taskRowsFrom (n + 1) ts

/-- `k` consecutive integers starting at `n` (the identities a run of
relational saves returns). -/
def intRangeFrom (n : Int) : Nat → List Int
  | 0 => []
  | k + 1 => n :: intRangeFrom (n + 1) k

/-- The users rows appended for a user list saved starting at rowid `n`:
sequential ids, call order. -/
def userRowsFrom (n : Int) : List User → List Row
  | [] => []
  | u :: us => mkUserRow n u.name :: userRowsFrom (n + 1) us

/-- The tasks rows appended for a user list saved while the tasks table's
next rowid is `n`: each user's owned tasks in collection order, rowids
running on across users. -/
def userTaskRowsFrom (n : Int) : List User → List Row
  | [] => []
  | u :: us => taskRowsFrom n u.tasks ++ userTaskRowsFrom (n + u.tasks.length) us

/-! ## Concrete fixtures used by witnesses and counterexamples -/

/-- A task carrying a due instant (the relational mapping has no due
column). -/
def cexTask : Task := { desc := "x", tags := [], due := some 5, done := false }

/-- What the relational backend reconstructs for `cexTask`. -/
def cexTaskLoaded : Task := { desc := "x", tags := [], due := none, done := false }

/-- Database after saving user "A" (no tasks) into a fresh store. -/
def dbA : DB := { users := [mkUserRow 1 "A"], tasks := [] }

/-- Database after then saving user "B" owning one task. -/
def dbB : DB :=
  { users := [mkUserRow 1 "A", mkUserRow 2 "B"], tasks := [mkTaskRow 1 (Task.new "t")] }

/-- Database with users "A" and "C" and no tasks. -/
def dbW4 : DB := { users := [mkUserRow 1 "A", mkUserRow 2 "C"], tasks := [] }

/-- Database with one user and one task row sharing rowid 1. -/
def dbW9 : DB := { users := [mkUserRow 1 "A"], tasks := [mkTaskRow 1 (Task.new "t")] }

/-- Database after one relational task save into a fresh store. -/
def dbT6 : DB := { users := [], tasks := [mkTaskRow 1 (Task.new "a")] }

/-- A user with one finished and one open task. -/
def wUser : User := User.with_tasks "S" [Task.finish (Task.new "One"), Task.new "Tre"]

/-- A task result row in schema order. -/
def cexRowA : Row :=
  [("desc", SQLValue.text "a"), ("done", SQLValue.integer 1), ("tags", SQLValue.null)]

/-- The same columns in reversed order. -/
def cexRowB : Row :=
  [("tags", SQLValue.null), ("done", SQLValue.integer 1), ("desc", SQLValue.text "a")]

/-- The task both orderings of the row reconstruct to. -/
def wTaskA : Task := { desc := "a", tags := [], due := none, done := true }

/-! ## Helper lemmas -/

theorem omapM_length {α β : Type} (f : α → Option β) :
    ∀ (l : List α) (l2 : List β), omapM f l = some l2 → l2.length = l.length := by
  intro l
  induction l with
  | nil =>
    intro l2 h
    simp [omapM] at h
    subst h
    rfl
  | cons a l ih =>
    intro l2 h
    cases hfa : f a with
    | none => rw [omapM, hfa] at h; simp at h
    | some b =>
      cases hml : omapM f l with
      | none => rw [omapM, hfa, hml] at h; simp at h
      | some bs =>
        rw [omapM, hfa, hml] at h
        simp at h
        simp [← h, ih bs hml]

theorem omapM_mem {α β : Type} (f : α → Option β) :
    ∀ (l : List α) (l2 : List β), omapM f l = some l2 →
      ∀ b ∈ l2, ∃ a ∈ l, f a = some b := by
  intro l
  induction l with
  | nil =>
    intro l2 h b hb
    simp [omapM] at h
    subst h
    simp at hb
  | cons a l ih =>
    intro l2 h b hb
    cases hfa : f a with
    | none => rw [omapM, hfa] at h; simp at h
    | some c =>
      cases hml : omapM f l with
      | none => rw [omapM, hfa, hml] at h; simp at h
      | some bs =>
        rw [omapM, hfa, hml] at h
        simp at h
        rw [← h] at hb
        rcases List.mem_cons.mp hb with hbc | hbs
        · exact ⟨a, List.mem_cons_self a l, by rw [hfa, hbc]⟩
        · rcases ih bs hml b hbs with ⟨a2, ha2, hfa2⟩
          exact ⟨a2, List.mem_cons_of_mem a ha2, hfa2⟩

theorem trivRunFrom_closed {α : Type} :
    ∀ (vs l : List α),
      trivRunFrom l vs = (l ++ vs, List.range' l.length vs.length) := by
  intro vs
  induction vs with
  | nil => intro l; simp [trivRunFrom]
  | cons v vs ih =>
    intro l
    simp [trivRunFrom, trivSave, ih (l ++ [v]), List.range'_succ]

theorem hlookup_hinsert_self {α : Type} (k : Nat) (v : α) (s : List (Nat × α)) :
    hlookup k (hinsert k v s) = some v := by
  induction s with
  | nil => simp [hinsert, hlookup]
  | cons p rest ih =>
    by_cases h : p.1 = k
    · simp [hinsert, h, hlookup]
    · simp [hinsert, h, hlookup, ih]

theorem hlookup_hinsert_ne {α : Type} (k k2 : Nat) (v : α) (s : List (Nat × α))
    (h : k2 ≠ k) : hlookup k (hinsert k2 v s) = hlookup k s := by
  induction s with
  | nil => simp [hinsert, hlookup, h]
  | cons p rest ih =>
    rw [hinsert]
    by_cases hp : p.1 = k2
    · rw [if_pos hp, hlookup, hlookup]
      rw [if_neg (fun he : k2 = k => h he)]
      rw [if_neg (fun he : p.1 = k => h (hp ▸ he))]
    · rw [if_neg hp, hlookup, hlookup]
      by_cases hk : p.1 = k
      · rw [if_pos hk, if_pos hk]
      · rw [if_neg hk, if_neg hk, ih]

theorem hashRunFrom_ids {α : Type} :
    ∀ (ps : List (Nat × α)) (s : List (Nat × α)),
      (hashRunFrom s ps).2 = ps.map Prod.fst := by
  intro ps
  induction ps with
  | nil => intro s; simp [hashRunFrom]
  | cons p rest ih =>
    intro s
    obtain ⟨tok, v⟩ := p
    simp [hashRunFrom, hsave, ih]

theorem hashRunFrom_lookup_notmem {α : Type} :
    ∀ (ps : List (Nat × α)) (s : List (Nat × α)) (k : Nat),
      k ∉ ps.map Prod.fst →
      hlookup k (hashRunFrom s ps).1 = hlookup k s := by
  intro ps
  induction ps with
  | nil => intro s k _; simp [hashRunFrom]
  | cons p rest ih =>
    intro s k hk
    obtain ⟨tok, v⟩ := p
    rw [List.map_cons, List.mem_cons] at hk
    push_neg at hk
    rw [hashRunFrom]
    have h1 := ih (hinsert tok v s) k hk.2
    simp [hsave] at h1 ⊢
    rw [h1, hlookup_hinsert_ne k tok v s (fun he => hk.1 he.symm)]

theorem hashRunFrom_lookup_mem {α : Type} :
    ∀ (ps : List (Nat × α)) (s : List (Nat × α)) (k : Nat) (v : α),
      (ps.map Prod.fst).Nodup → (k, v) ∈ ps →
      hlookup k (hashRunFrom s ps).1 = some v := by
  intro ps
  induction ps with
  | nil => intro s k v _ hm; simp at hm
  | cons p rest ih =>
    intro s k v hnd hm
    obtain ⟨tok, w⟩ := p
    rw [List.map_cons, List.nodup_cons] at hnd
    rcases List.mem_cons.mp hm with hhead | htail
    · cases hhead
      rw [hashRunFrom]
      simp [hsave]
      rw [hashRunFrom_lookup_notmem rest (hinsert k v s) k hnd.1,
        hlookup_hinsert_self]
    · rw [hashRunFrom]
      simp [hsave]
      exact ih (hinsert tok w s) k v hnd.2 htail

/-- By-name access is invariant under reordering the row's columns, as
long as the column names are distinct. -/
theorem rowLookup_perm (n : String) :
    ∀ (r1 r2 : Row), r1.Perm r2 → (r1.map Prod.fst).Nodup →
      rowLookup n r1 = rowLookup n r2 := by
  intro r1 r2 hperm
  induction hperm with
  | nil => intro _; rfl
  | cons p hp ih =>
    intro hnd
    rw [List.map_cons, List.nodup_cons] at hnd
    by_cases hpn : p.1 = n
    · rw [rowLookup, rowLookup,
        List.find?_cons_of_pos _ (by simp [hpn]),
        List.find?_cons_of_pos _ (by simp [hpn])]
    · have h1 := ih hnd.2
      rw [rowLookup, rowLookup] at h1 ⊢
      rw [List.find?_cons_of_neg _ (by simp [hpn]),
        List.find?_cons_of_neg _ (by simp [hpn])]
      exact h1
  | swap p q t =>
    intro hnd
    rw [List.map_cons, List.map_cons, List.nodup_cons, List.nodup_cons] at hnd
    have hqp : q.1 ≠ p.1 := fun he => hnd.1 (by rw [List.mem_cons]; exact Or.inl he)
    by_cases hpn : p.1 = n
    · have hqn : ¬ q.1 = n := fun he => hqp (he.trans hpn.symm)
      rw [rowLookup, rowLookup,
        List.find?_cons_of_neg _ (by simp [hqn]),
        List.find?_cons_of_pos _ (by simp [hpn]),
        List.find?_cons_of_pos _ (by simp [hpn])]
    · by_cases hqn : q.1 = n
      · rw [rowLookup, rowLookup,
          List.find?_cons_of_pos _ (by simp [hqn]),
          List.find?_cons_of_neg _ (by simp [hpn]),
          List.find?_cons_of_pos _ (by simp [hqn])]
      · rw [rowLookup, rowLookup,
          List.find?_cons_of_neg _ (by simp [hqn]),
          List.find?_cons_of_neg _ (by simp [hpn]),
          List.find?_cons_of_neg _ (by simp [hpn]),
          List.find?_cons_of_neg _ (by simp [hqn])]
  | trans h1 h2 ih1 ih2 =>
    intro hnd
    have hnd2 := ((h1.map Prod.fst).nodup_iff).mp hnd
    rw [ih1 hnd, ih2 hnd2]

/-! ## Claim theorems -/

/-- Claim C2 (counterexample): not every relational entity reads its row
columns by name.  `User::from_row` reads by ordinal position (`row.get(0)`
then `row.get(1)`), so swapping the two columns of a users row changes its
result: the schema ordering reconstructs the user, the swapped ordering
fails (the source panics on the type mismatch, modelled as `none`). -/
theorem user_from_row_ordinal_cex :
    User.from_row emptyDB [("id", SQLValue.integer 1), ("name", SQLValue.text "A")]
        = some (User.with_tasks "A" [])
    ∧ User.from_row emptyDB [("name", SQLValue.text "A"), ("id", SQLValue.integer 1)]
        = none := by
  exact ⟨by decide, by decide⟩

/-- Claim C2 (amended): `Task::from_row` reads its columns by name, so its
result is unchanged under any reordering of the row's distinct-named
columns, and it applies the entity defaults: any reconstructed task has an
absent due timestamp (the row carries no due column) and a null tags
column is reconstructed as the empty tag collection.  `User::from_row`,
by contrast, reads by ordinal position (see the counterexample). -/
theorem task_from_row_by_name :
    (∀ (r1 r2 : Row), r1.Perm r2 → (r1.map Prod.fst).Nodup →
        Task.from_row r1 = Task.from_row r2)
    ∧ (∀ (r : Row) (t : Task), Task.from_row r = some t →
        t.due = none ∧ (rowLookup "tags" r = some SQLValue.null → t.tags = [])) := by
  constructor
  · intro r1 r2 hperm hnd
    rw [Task.from_row, Task.from_row,
      rowLookup_perm "desc" r1 r2 hperm hnd,
      rowLookup_perm "done" r1 r2 hperm hnd,
      rowLookup_perm "tags" r1 r2 hperm hnd]
  · intro r t h
    rw [Task.from_row] at h
    cases hdesc : (rowLookup "desc" r).bind asText with
    | none => rw [hdesc] at h; simp at h
    | some desc =>
      cases hdone : (rowLookup "done" r).bind asBool with
      | none => rw [hdesc, hdone] at h; simp at h
      | some done =>
        cases htags : (rowLookup "tags" r).bind asOptText with
        | none => rw [hdesc, hdone, htags] at h; simp at h
        | some tagsOpt =>
          rw [hdesc, hdone, htags] at h
          simp at h
          constructor
          · rw [← h]
          · intro hnull
            rw [hnull] at htags
            simp [asOptText] at htags
            rw [← h, ← htags]

/-- Witness for C2 (amended) at a concrete task row and its reversal. -/
theorem task_from_row_by_name_witness :
    (cexRowA.Perm cexRowB ∧ (cexRowA.map Prod.fst).Nodup
      ∧ Task.from_row cexRowA = Task.from_row cexRowB)
    ∧ (Task.from_row cexRowA = some wTaskA
      ∧ wTaskA.due = none
      ∧ (rowLookup "tags" cexRowA = some SQLValue.null → wTaskA.tags = [])) := by
  refine ⟨⟨by decide, by decide, ?_⟩, ⟨by decide, ?_⟩⟩
  · exact task_from_row_by_name.1 cexRowA cexRowB (by decide) (by decide)
  · exact task_from_row_by_name.2 cexRowA wTaskA (by decide)

/-- The clause loop emits the `field = (?)` clauses joined by `AND` in
list order, and collects the values positionally in the same order. -/
theorem queryLoop_spec :
    ∀ ps : List (String × SQLValue),
      queryLoop ps
        = (whereClause (ps.map fun p => p.1 ++ " = (?)"), ps.map Prod.snd) := by
  intro ps
  induction ps with
  | nil => rfl
  | cons p rest ih =>
    cases rest with
    | nil =>
      simp [queryLoop, whereClause, String.append_assoc, String.append_empty]
    | cons q t =>
      rw [queryLoop, ih]
      simp [whereClause, String.append_assoc]

/-- `User::build_query` turns each credential into its `(field, value)`
pair, in the credential list's order. -/
theorem build_query_map :
    ∀ creds : List UserSearchTerms,
      User.build_query creds
        = creds.map (fun c => match c with
                              | UserSearchTerms.Name n => ("name", SQLValue.text n)) := by
  intro creds
  induction creds with
  | nil => rfl
  | cons c rest ih =>
    cases c with
    | Name n => rw [User.build_query, ih, List.map_cons]

/-- Claim C3: for every credential list and optional limit, the query
builder produces exactly the statement described by the spec: the entity's
full-table select; `WHERE` appended only if the parameter list is
non-empty; one `field = (?)` equality clause per credential, joined by
`AND` in the list's given order; each credential's value bound
positionally in the clause order; and a `LIMIT n` suffix appended at the
end iff a cap was requested. -/
theorem query_builder_text_spec :
    ∀ (creds : List UserSearchTerms) (limit : Option Nat),
      buildQueryText User.select (User.build_query creds) limit
        = (User.select
            ++ (if creds = [] then ""
                else " WHERE"
                  ++ whereClause ((User.build_query creds).map fun p => p.1 ++ " = (?)"))
            ++ limitSuffix limit,
           (User.build_query creds).map Prod.snd)
      ∧ User.build_query creds
          = creds.map (fun c => match c with
                                | UserSearchTerms.Name n => ("name", SQLValue.text n)) := by
  intro creds limit
  refine ⟨?_, build_query_map creds⟩
  rw [buildQueryText.eq_def, queryLoop_spec]
  cases creds with
  | nil =>
    cases limit with
    | none => simp [User.build_query, whereClause, limitSuffix]
    | some n => simp [User.build_query, whereClause, limitSuffix]
  | cons c rest =>
    cases c with
    | Name n =>
      have hlen : 0 < (User.build_query (UserSearchTerms.Name n :: rest)).length := by
        rw [User.build_query]
        exact Nat.succ_pos _
      cases limit with
      | none => simp [hlen, limitSuffix, String.append_assoc, String.append_empty]
      | some m => simp [hlen, limitSuffix, String.append_assoc]

/-- A well-formed users row is exactly `mkUserRow i s` for some id and
name. -/
theorem wfUserRow_shape (r : Row) (h : wfUserRow r = true) :
    ∃ i s, r = mkUserRow i s := by
  unfold wfUserRow at h
  split at h
  · next i s => exact ⟨i, s, rfl⟩
  · simp at h

/-- The limit only truncates: every survivor was among the matched rows. -/
theorem applyLimit_subset {α : Type} (limit : Option Nat) (l : List α) :
    applyLimit limit l ⊆ l := by
  cases limit with
  | none => exact fun a ha => ha
  | some n => exact List.take_subset n l

/-- `User::from_row` on a well-formed users row: the name comes from
column 1 and the tasks from the nested id query. -/
theorem user_from_row_mk (db : DB) (i : Int) (s : String) :
    User.from_row db (mkUserRow i s)
      = (queryTasks db [("id", SQLValue.integer i)] none).map
          (fun tasks => User.with_tasks s tasks) := rfl

theorem build_query_mem (creds : List UserSearchTerms) (n : String)
    (hc : UserSearchTerms.Name n ∈ creds) :
    ("name", SQLValue.text n) ∈ User.build_query creds := by
  rw [build_query_map]
  exact List.mem_map_of_mem _ hc

/-- Claim C4: `find` on the relational backend returns exactly the stored
records satisfying the conjunction (AND) of all given credentials — never
a union: every returned user satisfies every credential, the full result
is the reconstruction of exactly the credential-filtered stored rows when
no limit is given, the empty credential list behaves like `all`
(selecting every stored row, truncated only by the optional limit), and
the result count is capped at the limit when one is present. -/
theorem find_conjunction_semantics :
    ∀ (db : DB) (creds : List UserSearchTerms) (limit : Option Nat) (us : List User),
      db.users.all wfUserRow = true →
      findUsers db creds limit = some us →
      (∀ u ∈ us, ∀ c ∈ creds, credSatisfied u c = true)
      ∧ (∀ n, limit = some n → us.length ≤ n)
      ∧ (limit = none →
          omapM (User.from_row db)
            (db.users.filter (rowMatches (User.build_query creds))) = some us)
      ∧ (creds = [] →
          findUsers db creds limit = omapM (User.from_row db) (applyLimit limit db.users)) := by
  intro db creds limit us hwf h
  refine ⟨?_, ?_, ?_, ?_⟩
  · intro u hu c hc
    rw [findUsers, queryUsers] at h
    obtain ⟨r, hr, hfr⟩ := omapM_mem _ _ us h u hu
    have hrf : r ∈ db.users.filter (rowMatches (User.build_query creds)) :=
      applyLimit_subset limit _ hr
    obtain ⟨hrusers, hmatch⟩ := List.mem_filter.mp hrf
    obtain ⟨i, s, rfl⟩ := wfUserRow_shape r (List.all_eq_true.mp hwf _ hrusers)
    rw [user_from_row_mk] at hfr
    obtain ⟨ts, _, hu_eq⟩ := Option.map_eq_some'.mp hfr
    cases c with
    | Name n =>
      have hpair := List.all_eq_true.mp hmatch _ (build_query_mem creds n hc)
      have hlk : rowLookup "name" (mkUserRow i s) = some (SQLValue.text n) :=
        of_decide_eq_true hpair
      have hsn : s = n := by
        have : some (SQLValue.text s) = some (SQLValue.text n) := hlk
        injection this with hv
        injection hv
      rw [credSatisfied, ← hu_eq]
      simp [User.with_tasks, hsn]
  · intro n hn
    subst hn
    rw [findUsers, queryUsers, applyLimit] at h
    have hlen := omapM_length _ _ us h
    rw [hlen]
    exact List.length_take_le n _
  · intro hnone
    subst hnone
    rw [findUsers, queryUsers, applyLimit] at h
    exact h
  · intro hc
    subst hc
    rw [findUsers, queryUsers]
    rw [show User.build_query [] = [] from rfl]
    rw [show List.filter (rowMatches []) db.users = db.users from
      List.filter_eq_self.mpr (fun a _ => rfl)]

/-- Witness for C4: a store holding users "A" and "C"; searching for
`name = "C"` without a limit returns exactly the reconstruction of "C",
which satisfies the credential. -/
theorem find_conjunction_semantics_witness :
    (dbW4.users.all wfUserRow = true)
    ∧ (findUsers dbW4 [UserSearchTerms.Name "C"] none = some [User.with_tasks "C" []])
    ∧ (∀ u ∈ [User.with_tasks "C" []], ∀ c ∈ [UserSearchTerms.Name "C"],
        credSatisfied u c = true) := by
  refine ⟨by decide, by decide, ?_⟩
  exact (find_conjunction_semantics dbW4 [UserSearchTerms.Name "C"] none
    [User.with_tasks "C" []] (by decide) (by decide)).1

/-- Executing the users insert statement. -/
theorem execStmt_user (db : DB) (name : String) :
    execStmt db (User.insert, [SQLValue.text name]) = some (insertUserRaw db name) := by
  rw [execStmt, if_pos rfl]

/-- Executing the tasks insert statement. -/
theorem execStmt_task (db : DB) (desc : String) (donei : Int) (tagsv : SQLValue) :
    execStmt db (Task.insert, [SQLValue.text desc, SQLValue.integer donei, tagsv])
      = some (insertTaskRaw db desc donei tagsv) := by
  rw [execStmt]
  rw [if_neg (show ¬ Task.insert = User.insert by decide)]
  rw [if_pos rfl]

/-- The task-insert loop of `User::bind` is one task insert statement per
owned task, in collection order. -/
theorem bindTaskSeq_map :
    ∀ ts : List Task,
      bindTaskSeq ts = ts.map (fun t => (Task.insert, taskParams t)) := by
  intro ts
  induction ts with
  | nil => rfl
  | cons t ts ih =>
    rw [bindTaskSeq, Task.bindStmts, List.singleton_append, ih, List.map_cons]

/-- Executing the task inserts of a task list appends one row per task,
with sequential rowids, in collection order. -/
theorem execStmts_tasks :
    ∀ (ts : List Task) (db : DB),
      execStmts db (bindTaskSeq ts)
        = some { db with tasks := db.tasks ++ taskRowsFrom ((db.tasks.length : Int) + 1) ts } := by
  intro ts
  induction ts with
  | nil => intro db; simp [bindTaskSeq, execStmts, taskRowsFrom]
  | cons t ts ih =>
    intro db
    rw [bindTaskSeq, Task.bindStmts, List.singleton_append, execStmts]
    rw [show taskParams t
        = [SQLValue.text t.desc, SQLValue.integer (if t.done then 1 else 0), tagsVal t.tags]
      from rfl]
    rw [execStmt_task]
    rw [Option.some_bind]
    rw [ih]
    rw [taskRowsFrom]
    simp only [insertTaskRaw, mkTaskRow]
    rw [List.append_assoc, List.singleton_append]
    have hlen : ((db.tasks ++ [mkTaskRowRaw ((db.tasks.length : Int) + 1) t.desc
        (if t.done then 1 else 0) (tagsVal t.tags)]).length : Int) + 1
        = (db.tasks.length : Int) + 1 + 1 := by
      rw [List.length_append, List.length_singleton]
      push_cast
      ring
    rw [hlen]

/-- `Rusqlite::save::<Task>` appends one row with rowid `length + 1` and
returns that rowid. -/
theorem saveTask_eq (db : DB) (t : Task) :
    saveTask db t
      = some ({ db with tasks := db.tasks ++ [mkTaskRow ((db.tasks.length : Int) + 1) t] },
              (db.tasks.length : Int) + 1) := by
  rw [saveTask, Task.bindStmts, rusqSave]
  rw [show taskParams t
      = [SQLValue.text t.desc, SQLValue.integer (if t.done then 1 else 0), tagsVal t.tags]
    from rfl]
  rw [execStmt_task, Option.some_bind, execStmts, Option.map_some']
  rfl

/-- `Rusqlite::save::<User>`: the user row is appended with rowid
`users.length + 1` (which is the returned identity, from the first
insert), and one tasks row per owned task is appended with sequential
tasks rowids. -/
theorem saveUser_eq (db : DB) (u : User) :
    saveUser db u
      = some ({ users := db.users ++ [mkUserRow ((db.users.length : Int) + 1) u.name],
                tasks := db.tasks ++ taskRowsFrom ((db.tasks.length : Int) + 1) u.tasks },
              (db.users.length : Int) + 1) := by
  rw [saveUser, User.bindStmts, rusqSave, execStmt_user, Option.some_bind]
  rw [show (insertUserRaw db u.name).1
      = { db with users := db.users ++ [mkUserRow ((db.users.length : Int) + 1) u.name] }
    from rfl]
  rw [execStmts_tasks u.tasks]
  rfl

/-- The run of task saves in closed form. -/
theorem taskRunFrom_closed :
    ∀ (ts : List Task) (db : DB),
      taskRunFrom db ts
        = some ({ db with tasks := db.tasks ++ taskRowsFrom ((db.tasks.length : Int) + 1) ts },
                intRangeFrom ((db.tasks.length : Int) + 1) ts.length) := by
  intro ts
  induction ts with
  | nil => intro db; simp [taskRunFrom, taskRowsFrom, intRangeFrom]
  | cons t ts ih =>
    intro db
    rw [taskRunFrom, saveTask_eq, Option.some_bind, ih, Option.map_some']
    rw [taskRowsFrom, List.length_cons, intRangeFrom]
    have hlen : ((db.tasks ++ [mkTaskRow ((db.tasks.length : Int) + 1) t]).length : Int) + 1
        = (db.tasks.length : Int) + 1 + 1 := by
      rw [List.length_append, List.length_singleton]
      push_cast
      ring
    rw [hlen]
    rw [List.append_assoc, List.singleton_append]

theorem taskRowsFrom_length :
    ∀ (ts : List Task) (n : Int), (taskRowsFrom n ts).length = ts.length := by
  intro ts
  induction ts with
  | nil => intro n; rfl
  | cons t ts ih => intro n; rw [taskRowsFrom, List.length_cons, List.length_cons, ih]

/-- The run of user saves in closed form: both tables only grow by
appending (no stored row is touched), the appended users rows carry
sequential rowids from `users.length + 1`, and those rowids are the
returned identities in call order. -/
theorem userRunFrom_closed :
    ∀ (us : List User) (db : DB),
      userRunFrom db us
        = some ({ users := db.users ++ userRowsFrom ((db.users.length : Int) + 1) us,
                  tasks := db.tasks ++ userTaskRowsFrom ((db.tasks.length : Int) + 1) us },
                intRangeFrom ((db.users.length : Int) + 1) us.length) := by
  intro us
  induction us with
  | nil => intro db; simp [userRunFrom, userRowsFrom, userTaskRowsFrom, intRangeFrom]
  | cons u us ih =>
    intro db
    rw [userRunFrom, saveUser_eq, Option.some_bind, ih, Option.map_some']
    rw [userRowsFrom, userTaskRowsFrom, List.length_cons, intRangeFrom]
    have hulen : ((db.users ++ [mkUserRow ((db.users.length : Int) + 1) u.name]).length : Int) + 1
        = (db.users.length : Int) + 1 + 1 := by
      rw [List.length_append, List.length_singleton]
      push_cast
      ring
    have htlen : ((db.tasks ++ taskRowsFrom ((db.tasks.length : Int) + 1) u.tasks).length : Int) + 1
        = (db.tasks.length : Int) + 1 + (u.tasks.length : Int) := by
      rw [List.length_append, taskRowsFrom_length]
      push_cast
      ring
    rw [hulen, htlen]
    rw [List.append_assoc, List.singleton_append, List.append_assoc]

theorem intRangeFrom_mem :
    ∀ (k : Nat) (n m : Int), m ∈ intRangeFrom n k → n ≤ m := by
  intro k
  induction k with
  | zero => intro n m hm; simp [intRangeFrom] at hm
  | succ k ih =>
    intro n m hm
    rw [intRangeFrom] at hm
    rcases List.mem_cons.mp hm with he | ht
    · exact he ▸ le_refl n
    · exact le_trans (by omega) (ih (n + 1) m ht)

theorem intRangeFrom_nodup : ∀ (k : Nat) (n : Int), (intRangeFrom n k).Nodup := by
  intro k
  induction k with
  | zero => intro n; simp [intRangeFrom]
  | succ k ih =>
    intro n
    rw [intRangeFrom, List.nodup_cons]
    exact ⟨fun hm => by have := intRangeFrom_mem k (n + 1) n hm; omega, ih (n + 1)⟩

/-- Every row appended for a saved task list carries a rowid at least the
starting rowid. -/
theorem taskRowsFrom_id :
    ∀ (ts : List Task) (n : Int) (r : Row), r ∈ taskRowsFrom n ts →
      ∃ m : Int, rowLookup "id" r = some (SQLValue.integer m) ∧ n ≤ m := by
  intro ts
  induction ts with
  | nil => intro n r hr; simp [taskRowsFrom] at hr
  | cons t ts ih =>
    intro n r hr
    rw [taskRowsFrom] at hr
    rcases List.mem_cons.mp hr with he | ht
    · exact ⟨n, by rw [he]; rfl, le_refl n⟩
    · obtain ⟨m, hm, hle⟩ := ih (n + 1) r ht
      exact ⟨m, hm, by omega⟩

/-- Appending rows that all fail the id predicate does not change a
`get`. -/
theorem getTask_append (db : DB) (newRows : List Row) (id : Int)
    (hnew : ∀ r ∈ newRows, rowMatches [("id", SQLValue.integer id)] r = false) :
    getTask { users := db.users, tasks := db.tasks ++ newRows } id = getTask db id := by
  rw [getTask, getTask, queryTasks, queryTasks]
  rw [show ({ users := db.users, tasks := db.tasks ++ newRows } : DB).tasks
      = db.tasks ++ newRows from rfl]
  rw [List.filter_append]
  rw [show List.filter (rowMatches [("id", SQLValue.integer id)]) newRows = [] from
    List.filter_eq_nil_iff.mpr (fun r hr => by rw [hnew r hr]; exact Bool.false_ne_true)]
  rw [List.append_nil]

/-- Claim C6 (counterexample): on the relational backend, `get` at a
previously returned identity is not stable under later saves.  Saving user
"A" (no tasks) into a fresh store returns identity 1, and `get 1` yields
user "A" with no tasks; after a later save of user "B" owning one task
(whose tasks-table rowid is 1), `get 1` yields user "A" owning that task —
no longer structurally equal to the record saved under identity 1. -/
theorem save_stability_cex :
    saveUser emptyDB (User.new "A") = some (dbA, 1)
    ∧ getUser dbA 1 = some (some (User.with_tasks "A" []))
    ∧ saveUser dbA (User.with_tasks "B" [Task.new "t"]) = some (dbB, 2)
    ∧ getUser dbB 1 = some (some (User.with_tasks "A" [Task.new "t"]))
    ∧ User.with_tasks "A" [Task.new "t"] ≠ User.with_tasks "A" [] := by
  refine ⟨by decide, by decide, by decide, by decide, by decide⟩

/-- Claim C6 (amended): all identities returned by a run of saves are
pairwise distinct on every backend — the sequential store, the
hash-indexed store (under the token generator's uniqueness guarantee),
and the relational backend for both task-save and user-save runs.  For
the sequential store, `get` at the identity of the i-th save still
returns that save's value after any number of later saves; likewise for
the hash-indexed store.  On the relational backend, save never
overwrites a stored row: a task-save run leaves the users table
untouched and only appends to the tasks table (so a later task save
never disturbs `get` at an earlier task identity), and a user-save run
only appends to both tables.  Nevertheless a later save CAN change what
`get` returns at an earlier user identity (see the counterexample,
through the tasks refetch), and relational reconstruction is in any case
not structurally faithful (see C1). -/
theorem save_identities_spec :
    (∀ (α : Type) (vs : List α),
        ((trivRunFrom ([] : List α) vs).2).Nodup
        ∧ ∀ (i : Nat) (v : α), vs[i]? = some v →
            trivGet (trivRunFrom ([] : List α) vs).1 i = some v)
    ∧ (∀ (α : Type) (ps : List (Nat × α)), (ps.map Prod.fst).Nodup →
        ((hashRunFrom ([] : List (Nat × α)) ps).2).Nodup
        ∧ ∀ (k : Nat) (v : α), (k, v) ∈ ps →
            hlookup k (hashRunFrom ([] : List (Nat × α)) ps).1 = some v)
    ∧ (∀ (db : DB) (ts : List Task) (db2 : DB) (ids : List Int),
        taskRunFrom db ts = some (db2, ids) →
        ids = intRangeFrom ((db.tasks.length : Int) + 1) ts.length
        ∧ ids.Nodup
        ∧ db2.users = db.users
        ∧ db2.tasks = db.tasks ++ taskRowsFrom ((db.tasks.length : Int) + 1) ts
        ∧ ∀ id : Int, id ≤ (db.tasks.length : Int) → getTask db2 id = getTask db id)
    ∧ (∀ (db : DB) (us : List User) (db2 : DB) (ids : List Int),
        userRunFrom db us = some (db2, ids) →
        ids = intRangeFrom ((db.users.length : Int) + 1) us.length
        ∧ ids.Nodup
        ∧ db2.users = db.users ++ userRowsFrom ((db.users.length : Int) + 1) us
        ∧ db2.tasks = db.tasks ++ userTaskRowsFrom ((db.tasks.length : Int) + 1) us) := by
  refine ⟨?_, ?_, ?_, ?_⟩
  · intro α vs
    have h := trivRunFrom_closed vs ([] : List α)
    constructor
    · rw [h]
      simpa [List.range_eq_range'] using List.nodup_range vs.length
    · intro i v hv
      rw [h]
      exact hv
  · intro α ps hnd
    constructor
    · rw [hashRunFrom_ids]
      exact hnd
    · intro k v hm
      exact hashRunFrom_lookup_mem ps [] k v hnd hm
  · intro db ts db2 ids h
    rw [taskRunFrom_closed] at h
    have hdb : db2 = { db with
        tasks := db.tasks ++ taskRowsFrom ((db.tasks.length : Int) + 1) ts } := by
      injection h with h1
      injection h1 with h2 h3
      exact h2.symm
    have hids : ids = intRangeFrom ((db.tasks.length : Int) + 1) ts.length := by
      injection h with h1
      injection h1 with h2 h3
      exact h3.symm
    refine ⟨hids, hids ▸ intRangeFrom_nodup ts.length _, by rw [hdb], by rw [hdb], ?_⟩
    intro id hle
    rw [hdb]
    exact getTask_append db _ id (fun r hr => by
      obtain ⟨m, hm, hge⟩ := taskRowsFrom_id ts _ r hr
      rw [rowMatches]
      simp only [List.all_cons, List.all_nil, Bool.and_true]
      rw [hm]
      rw [decide_eq_false]
      intro he
      injection he with he2
      injection he2 with he3
      omega)
  · intro db us db2 ids h
    rw [userRunFrom_closed] at h
    have hdb : db2 = { users := db.users ++ userRowsFrom ((db.users.length : Int) + 1) us,
                       tasks := db.tasks ++ userTaskRowsFrom ((db.tasks.length : Int) + 1) us } := by
      injection h with h1
      injection h1 with h2 h3
      exact h2.symm
    have hids : ids = intRangeFrom ((db.users.length : Int) + 1) us.length := by
      injection h with h1
      injection h1 with h2 h3
      exact h3.symm
    exact ⟨hids, hids ▸ intRangeFrom_nodup us.length _, by rw [hdb], by rw [hdb]⟩

/-- Witness for C6 (amended), touching all three backends, both entity
types on the relational one. -/
theorem save_identities_spec_witness :
    (([7, 8] : List Nat)[0]? = some 7
      ∧ trivGet (trivRunFrom ([] : List Nat) [7, 8]).1 0 = some 7)
    ∧ (([(10, (3 : Nat)), (20, 4)].map Prod.fst).Nodup
      ∧ hlookup 10 (hashRunFrom ([] : List (Nat × Nat)) [(10, 3), (20, 4)]).1 = some 3)
    ∧ (taskRunFrom emptyDB [Task.new "a"] = some (dbT6, [1])
      ∧ (0 : Int) ≤ (emptyDB.tasks.length : Int)
      ∧ getTask dbT6 0 = getTask emptyDB 0)
    ∧ (userRunFrom emptyDB [User.new "A", User.new "B"] = some
        ({ users := [mkUserRow 1 "A", mkUserRow 2 "B"], tasks := [] }, [1, 2])
      ∧ ([1, 2] : List Int).Nodup
      ∧ ({ users := [mkUserRow 1 "A", mkUserRow 2 "B"], tasks := [] } : DB).users
          = emptyDB.users ++ userRowsFrom ((emptyDB.users.length : Int) + 1)
              [User.new "A", User.new "B"]) := by
  refine ⟨⟨by decide, ?_⟩, ⟨by decide, ?_⟩, ⟨by decide, by decide, ?_⟩, ⟨by decide, ?_, ?_⟩⟩
  · exact (save_identities_spec.1 Nat [7, 8]).2 0 7 (by decide)
  · exact ((save_identities_spec.2.1 Nat [(10, 3), (20, 4)]) (by decide)).2 10 3 (by decide)
  · exact ((save_identities_spec.2.2.1 emptyDB [Task.new "a"] dbT6 [1])
      (by decide)).2.2.2.2 0 (by decide)
  · exact (save_identities_spec.2.2.2 emptyDB [User.new "A", User.new "B"]
      { users := [mkUserRow 1 "A", mkUserRow 2 "B"], tasks := [] } [1, 2] (by decide)).2.1
  · exact (save_identities_spec.2.2.2 emptyDB [User.new "A", User.new "B"]
      { users := [mkUserRow 1 "A", mkUserRow 2 "B"], tasks := [] } [1, 2] (by decide)).2.2.1

/-- Claim C7: `get` on an identity never saved to the store returns absent
as a success outcome, never an error or abort, on all three backends.  For
the sequential store the identities ever returned are exactly the indices
below the length; for the hash store they are the stored keys; for the
relational backend an unknown rowid matches no stored row, so the call
succeeds (outer `some`: no panic) with an absent result (inner `none`). -/
theorem get_absent_spec :
    (∀ (α : Type) (l : List α) (i : Nat), l.length ≤ i → trivGet l i = none)
    ∧ (∀ (α : Type) (s : List (Nat × α)) (k : Nat),
        (∀ p ∈ s, p.1 ≠ k) → hlookup k s = none)
    ∧ (∀ (db : DB) (id : Int),
        (∀ r ∈ db.tasks, rowLookup "id" r ≠ some (SQLValue.integer id)) →
        getTask db id = some none)
    ∧ (∀ (db : DB) (id : Int),
        (∀ r ∈ db.users, rowLookup "id" r ≠ some (SQLValue.integer id)) →
        getUser db id = some none) := by
  refine ⟨?_, ?_, ?_, ?_⟩
  · intro α l i h
    exact List.getElem?_eq_none h
  · intro α s k h
    induction s with
    | nil => rfl
    | cons p rest ih =>
      rw [hlookup]
      rw [if_neg (h p (List.mem_cons_self p rest))]
      exact ih (fun q hq => h q (List.mem_cons_of_mem p hq))
  · intro db id h
    rw [getTask, queryTasks]
    rw [show List.filter (rowMatches [("id", SQLValue.integer id)]) db.tasks = [] from
      List.filter_eq_nil_iff.mpr (fun r hr => by
        rw [rowMatches]
        simp only [List.all_cons, List.all_nil, Bool.and_true]
        simp [h r hr])]
    rfl
  · intro db id h
    rw [getUser, queryUsers]
    rw [show List.filter (rowMatches [("id", SQLValue.integer id)]) db.users = [] from
      List.filter_eq_nil_iff.mpr (fun r hr => by
        rw [rowMatches]
        simp only [List.all_cons, List.all_nil, Bool.and_true]
        simp [h r hr])]
    rfl

/-- Witness for C7 on all backends at identities never returned by any
save. -/
theorem get_absent_spec_witness :
    (([] : List Nat).length ≤ 0 ∧ trivGet ([] : List Nat) 0 = none)
    ∧ ((∀ p ∈ ([(1, 2)] : List (Nat × Nat)), p.1 ≠ 5) ∧ hlookup 5 [(1, 2)] = none)
    ∧ ((∀ r ∈ dbT6.tasks, rowLookup "id" r ≠ some (SQLValue.integer 9))
      ∧ getTask dbT6 9 = some none)
    ∧ ((∀ r ∈ dbA.users, rowLookup "id" r ≠ some (SQLValue.integer 9))
      ∧ getUser dbA 9 = some none) := by
  refine ⟨⟨by decide, ?_⟩, ⟨by decide, ?_⟩, ⟨by decide, ?_⟩, ⟨by decide, ?_⟩⟩
  · exact get_absent_spec.1 Nat [] 0 (by decide)
  · exact get_absent_spec.2.1 Nat [(1, 2)] 5 (by decide)
  · exact get_absent_spec.2.2.1 dbT6 9 (by decide)
  · exact get_absent_spec.2.2.2 dbA 9 (by decide)

/-- Claim C8: saving a `User` to the relational backend appends the user's
own row (rowid `users.length + 1`) and one tasks-table row per owned task,
in collection order with sequential tasks rowids; the statement trace of
`User::bind` is the user insert followed by one `Task::insert` statement
per task; and the identity returned is the rowid of the user's own insert
— the first statement executed — not of any task insert. -/
theorem save_user_cascade_spec :
    ∀ (db : DB) (u : User),
      saveUser db u
        = some ({ users := db.users ++ [mkUserRow ((db.users.length : Int) + 1) u.name],
                  tasks := db.tasks ++ taskRowsFrom ((db.tasks.length : Int) + 1) u.tasks },
                (db.users.length : Int) + 1)
      ∧ User.bindStmts u
          = (User.insert, [SQLValue.text u.name])
            :: u.tasks.map (fun t => (Task.insert, taskParams t)) := by
  intro db u
  refine ⟨saveUser_eq db u, ?_⟩
  rw [User.bindStmts, bindTaskSeq_map]

/-- Claim C9: when a `User` is reconstructed from a relational row, its
owned task collection is exactly the result of querying the tasks table
with the single predicate `id = <the user's row value at column 0>` — the
tasks' own primary key, since the rows written to the tasks table carry
only the columns `id`, `desc`, `done`, `tags` and no owner-reference
column. -/
theorem user_children_by_rowid :
    ∀ (db : DB) (r : Row) (i : Int) (u : User),
      (rowIdx 0 r).bind asInt = some i →
      User.from_row db r = some u →
      queryTasks db [("id", SQLValue.integer i)] none = some u.tasks
      ∧ (∀ (id : Int) (t : Task),
          (mkTaskRow id t).map Prod.fst = ["id", "desc", "done", "tags"]) := by
  intro db r i u h0 h
  refine ⟨?_, fun id t => rfl⟩
  rw [User.from_row, h0, Option.some_bind] at h
  cases hn : (rowIdx 1 r).bind asText with
  | none => rw [hn] at h; simp at h
  | some name =>
    rw [hn, Option.some_bind] at h
    cases hq : queryTasks db [("id", SQLValue.integer i)] none with
    | none => rw [hq] at h; simp at h
    | some ts =>
      rw [hq, Option.map_some'] at h
      injection h with h2
      rw [← h2]
      rfl

/-- Witness for C9: a store whose tasks table has a row with rowid 1; the
user row with id 1 reconstructs owning exactly that task. -/
theorem user_children_by_rowid_witness :
    ((rowIdx 0 (mkUserRow 1 "A")).bind asInt = some 1)
    ∧ (User.from_row dbW9 (mkUserRow 1 "A") = some (User.with_tasks "A" [Task.new "t"]))
    ∧ queryTasks dbW9 [("id", SQLValue.integer 1)] none = some [Task.new "t"] := by
  refine ⟨by decide, by decide, ?_⟩
  exact (user_children_by_rowid dbW9 (mkUserRow 1 "A") 1
    (User.with_tasks "A" [Task.new "t"]) (by decide) (by decide)).1

/-- Claim C1 (counterexample): the round-trip `get(save(e)) = e` fails on
the relational backend.  Saving the task `cexTask`, whose due instant is
`some 5`, into a fresh store and fetching it back by the returned identity
yields `cexTaskLoaded`, whose due instant is `none` — not structurally
equal to the saved task. -/
theorem relational_roundtrip_cex :
    (saveTask emptyDB cexTask).bind (fun p => getTask p.1 p.2)
        = some (some cexTaskLoaded)
    ∧ cexTaskLoaded ≠ cexTask := by
  exact ⟨by decide, by decide⟩

/-- Claim C1 (amended): for the sequential and hash-indexed in-memory
backends, saving any entity and fetching by the returned identity yields a
value structurally equal to the saved one (the stores copy values
verbatim, so the owned task collection, due timestamp and tags all
round-trip); the relational backend does not satisfy the round-trip (see
the counterexample: a task's due timestamp is reconstructed as absent). -/
theorem inmem_roundtrip :
    (∀ (α : Type) (l : List α) (v : α),
        trivGet (trivSave l v).1 (trivSave l v).2 = some v)
    ∧ (∀ (α : Type) (s : List (Nat × α)) (tok : Nat) (v : α),
        hlookup (hsave s tok v).2 (hsave s tok v).1 = some v) := by
  constructor
  · intro α l v
    simp [trivGet, trivSave, List.getElem?_concat_length]
  · intro α s tok v
    simpa [hsave] using hlookup_hinsert_self tok v s

/-- Claim C5: for the sequential in-memory store, `save` appends the value
and returns the new length minus one, a run of saves from the empty store
returns identities `0, 1, ..., n-1` in order and leaves the store holding
exactly the saved values in insertion order (which `all` returns as a
copy); in particular saving the same logical value twice yields a
two-element sequence of structurally-equal entries at positions 0 and 1
with distinct identities 0 and 1. -/
theorem trivial_store_spec :
    (∀ (α : Type) (l : List α) (v : α),
        trivSave l v = (l ++ [v], (l ++ [v]).length - 1))
    ∧ (∀ (α : Type) (vs : List α),
        trivRunFrom [] vs = (vs, List.range vs.length)
        ∧ trivAll (trivRunFrom ([] : List α) vs).1 = vs)
    ∧ (∀ (α : Type) (v : α), trivRunFrom [] [v, v] = ([v, v], [0, 1])) := by
  refine ⟨?_, ?_, ?_⟩
  · intro α l v
    simp [trivSave]
  · intro α vs
    have h := trivRunFrom_closed vs ([] : List α)
    rw [List.nil_append, List.length_nil, ← List.range_eq_range'] at h
    exact ⟨h, by rw [trivAll, h]⟩
  · intro α v
    have h := trivRunFrom_closed [v, v] ([] : List α)
    simpa [List.range'] using h

/-- Claim C10: `find_all_done_via_id` aborts (the `expect` panic, modelled
as `none`) when the identity is absent from the store, rather than
returning an empty list; when the identity resolves to a user it returns
exactly the user's completed tasks, i.e. the `is_done` filter of the
user's task list, which preserves the original insertion order. -/
theorem find_all_done_via_id_spec :
    (∀ (Store Id : Type) (getf : Store → Id → Option User) (repo : Store) (id : Id),
        getf repo id = none → find_all_done_via_id getf repo id = none)
    ∧ (∀ (Store Id : Type) (getf : Store → Id → Option User) (repo : Store)
        (id : Id) (u : User),
        getf repo id = some u →
          find_all_done_via_id getf repo id = some (find_all_done u)
          ∧ find_all_done u = u.tasks.filter (fun t => t.is_done)) := by
  constructor
  · intro _ _ getf repo id h
    simp [find_all_done_via_id, h]
  · intro _ _ getf repo id u h
    exact ⟨by simp [find_all_done_via_id, h], rfl⟩

/-- Witness for C10 at the sequential store over `User`: the empty store
has no user at identity 0, so the use case aborts; the one-element store
resolves identity 0 to `wUser` and the use case returns its completed
tasks. -/
theorem find_all_done_via_id_spec_witness :
    (trivGet ([] : List User) 0 = none
      ∧ find_all_done_via_id trivGet ([] : List User) 0 = none)
    ∧ (trivGet [wUser] 0 = some wUser
      ∧ find_all_done_via_id trivGet [wUser] 0 = some (find_all_done wUser)) := by
  refine ⟨⟨by decide, ?_⟩, ⟨by decide, ?_⟩⟩
  · exact find_all_done_via_id_spec.1 (List User) Nat trivGet [] 0 (by decide)
  · exact (find_all_done_via_id_spec.2 (List User) Nat trivGet [wUser] 0 wUser
      (by decide)).1

end CleanArch
